import Mathlib

/-!
# Verification of the query-condition applicator of `request/request.go`

The development embeds `PaginationConditions` and `ApplyPaginationConditions`
(request.go, lines 10-68) and settles the testable properties of the
specification against that embedding.

Conventions of the embedding
* a Go pointer field (`*int`, `*uint`, `*string`, `*time.Time`) is an `Option`;
* Go `int` is `Int`, Go `uint` is `Nat` (no arithmetic is performed on either,
  so no wrap-around can occur);
* `time.Time` is an instant, represented by its `Int` count of nanoseconds;
* the query handle `*gorm.DB` belongs to an external library; it is represented
  by the record `Query` of the clauses accumulated so far.
-/

namespace Request

/-! ## Data model -/

/-- A value stored in a column or bound to a `?` placeholder. -/
inductive Value where
  | null
  | num (i : Int)
  | text (s : String)
deriving DecidableEq, Repr

/-- Mirror of the Go struct `PaginationConditions` (request.go, lines 10-21). -/
structure PaginationConditions where
  Limit : Option Int
  Offset : Option Int
  SortBy : Option String
  Order : Option String
  GreaterThanID : Option Nat
  LessThanID : Option Nat
  CreatedAfter : Option Int
  CreatedBefore : Option Int
  UpdatedAfter : Option Int
  UpdatedBefore : Option Int
deriving DecidableEq, Repr

/-- A `WHERE` condition as handed to the query builder: the textual template
and the values bound to its placeholders. -/
structure Predicate where
  text : String
  args : List Value
deriving DecidableEq, Repr

/-- Modelled from the spec: the opaque, composable query handle of §4.1 (the
`*gorm.DB` of the source, whose code is not part of the repository).  It
records the offset, the predicates (conjoined, in the order they were added),
the order directives (in the order they were added), the limit, and every
other part of the statement (`rest`: selected table, joins, ...) that the
applicator never touches. -/
structure Query where
  offset : Option Int
  wheres : List Predicate
  orders : List String
  limit : Option Int
  rest : List String
deriving DecidableEq, Repr

/-- Modelled from the spec: `withOffset` (`query.Offset(n)` in the source). -/
def Query.Offset (q : Query) (n : Int) : Query :=
  { q with offset := some n }

/-- Modelled from the spec: `withWhere(predicate)` (`query.Where(text, arg)` in
the source): the predicate is added after the ones already present. -/
def Query.Where (q : Query) (text : String) (arg : Value) : Query :=
  { q with wheres := q.wheres ++ [⟨text, [arg]⟩] }

/-- Modelled from the spec: `withOrder` (`query.Order(text)` in the source):
the directive is added after the ones already present; the builder ignores an
empty directive. -/
def Query.Order (q : Query) (text : String) : Query :=
  if text = "" then q else { q with orders := q.orders ++ [text] }

/-- Modelled from the spec: `withLimit` (`query.Limit(n)` in the source). -/
def Query.Limit (q : Query) (n : Int) : Query :=
  { q with limit := some n }

/-- The query on which the caller has placed no clause at all. -/
def Query.unconstrained : Query :=
  { offset := none, wheres := [], orders := [], limit := none, rest := [] }

/-- The conditions value with all ten fields absent. -/
def PaginationConditions.absent : PaginationConditions :=
  { Limit := none, Offset := none, SortBy := none, Order := none,
    GreaterThanID := none, LessThanID := none, CreatedAfter := none,
    CreatedBefore := none, UpdatedAfter := none, UpdatedBefore := none }

/-! ## The applicator -/

/-- Step of request.go lines 25-27. -/
def applyOffset (query : Query) (conditions : PaginationConditions) : Query :=
  match conditions.Offset with
  | some n => if n > 0 then query.Offset n else query
  | none => query

/-- Steps of request.go lines 30-35. -/
def applyIDBounds (query : Query) (conditions : PaginationConditions) : Query :=
  let query :=
    match conditions.GreaterThanID with
    | some v => query.Where "id > ?" (Value.num v)
    | none => query
  match conditions.LessThanID with
  | some v => query.Where "id < ?" (Value.num v)
  | none => query

/-- Steps of request.go lines 38-49. -/
def applyDateFilters (query : Query) (conditions : PaginationConditions) : Query :=
  let query :=
    match conditions.CreatedAfter with
    | some v => query.Where "created_at >= ?" (Value.num v)
    | none => query
  let query :=
    match conditions.CreatedBefore with
    | some v => query.Where "created_at <= ?" (Value.num v)
    | none => query
  let query :=
    match conditions.UpdatedAfter with
    | some v => query.Where "updated_at >= ?" (Value.num v)
    | none => query
  match conditions.UpdatedBefore with
  | some v => query.Where "updated_at <= ?" (Value.num v)
  | none => query

/-- The order directive of request.go lines 52-60:
`fmt.Sprintf("%s %s", sortBy, order)` with the defaults `"id"` and `"DESC"`. -/
def orderDirective (conditions : PaginationConditions) : String :=
  let sortBy :=
    match conditions.SortBy with
    | some s => s
    | none => "id"
  let order :=
    match conditions.Order with
    | some o => o
    | none => "DESC"
  sortBy ++ " " ++ order

/-- Step of request.go lines 63-65. -/
def applyLimit (query : Query) (conditions : PaginationConditions) : Query :=
  match conditions.Limit with
  | some n => if n > 0 then query.Limit n else query
  | none => query

/-- Embedding of `ApplyPaginationConditions` (request.go, lines 23-68). -/
def ApplyPaginationConditions (query : Query) (conditions : PaginationConditions) : Query :=
  let query := applyOffset query conditions
  let query := applyIDBounds query conditions
  let query := applyDateFilters query conditions
  let query := query.Order (orderDirective conditions)
  let query := applyLimit query conditions
  query

/-! ## Execution of a composed query

The applicator performs no I/O; the claims that speak of "executing the query"
are settled against the following reading of the composed statement:
`SELECT * FROM t WHERE p1 AND ... AND pn ORDER BY o1, ..., om LIMIT l OFFSET k`.
-/

/-- A row of a table: the identity field, the two timestamps, and the values of
the other columns of the table, in the order of the table's column list. -/
structure Row where
  id : Nat
  created_at : Int
  updated_at : Int
  vals : List Value
deriving DecidableEq, Repr

/-- A table: the names of its columns beyond `id`, `created_at`, `updated_at`,
and its rows in storage order. -/
structure Table where
  columns : List String
  rows : List Row
deriving DecidableEq, Repr

/-- Lexicographic ("alphabetical") comparison of two texts by character code. -/
def lexLe : List Char → List Char → Bool
  | [], _ => true
  | _ :: _, [] => false
  | a :: as, b :: bs =>
    if a.toNat < b.toNat then true
    else if b.toNat < a.toNat then false
    else lexLe as bs

/-- Modelled from the spec: the engine's ordering of values (the engine is not
part of the repository): `NULL` first, then numbers by value, then text in
lexicographic ("alphabetical") order. -/
def Value.le : Value → Value → Bool
  | .null, _ => true
  | .num _, .null => false
  | .num a, .num b => decide (a ≤ b)
  | .num _, .text _ => true
  | .text _, .null => false
  | .text _, .num _ => false
  | .text a, .text b => lexLe a.toList b.toList

/-- Comparison operators understood in a predicate template. -/
inductive CmpOp where
  | gt | lt | ge | le | eq | ne
deriving DecidableEq, Repr

/-- Modelled from the spec: truth of `x op y` in the engine; a comparison with
`NULL` is never true. -/
def CmpOp.eval (op : CmpOp) (x y : Value) : Bool :=
  match x, y with
  | .null, _ => false
  | _, .null => false
  | _, _ =>
    match op with
    | .gt => !(x.le y)
    | .lt => !(y.le x)
    | .ge => y.le x
    | .le => x.le y
    | .eq => decide (x = y)
    | .ne => decide (x ≠ y)

/-- Splits a text at every single space. -/
def splitOnSpace : List Char → List (List Char)
  | [] => [[]]
  | c :: cs =>
    if c = ' ' then [] :: splitOnSpace cs
    else
      match splitOnSpace cs with
      | [] => [[c]]
      | w :: ws => (c :: w) :: ws

/-- The space-separated words of a clause text. -/
def words (s : String) : List String :=
  (splitOnSpace s.toList).map String.mk

/-- Reads a comparison operator. -/
def parseOp (s : String) : Option CmpOp :=
  if s = ">" then some .gt
  else if s = "<" then some .lt
  else if s = ">=" then some .ge
  else if s = "<=" then some .le
  else if s = "=" then some .eq
  else if s = "<>" then some .ne
  else none

/-- Modelled from the spec: resolution of a column name against a table; an
unknown name is an engine-level error (`none`). -/
def Table.column (t : Table) (name : String) : Option (Row → Value) :=
  if name = "id" then some (fun r => .num r.id)
  else if name = "created_at" then some (fun r => .num r.created_at)
  else if name = "updated_at" then some (fun r => .num r.updated_at)
  else if name ∈ t.columns then some (fun r => r.vals.getD (t.columns.indexOf name) .null)
  else none

/-- Modelled from the spec: the engine's reading of one predicate,
`<column> <op> ?` with one bound value; anything else is an engine-level
error. -/
def compileWhere (t : Table) (p : Predicate) : Option (Row → Bool) :=
  match words p.text, p.args with
  | [c, o, ph], [v] =>
    if ph = "?" then
      match t.column c, parseOp o with
      | some get, some op => some (fun r => op.eval (get r) v)
      | _, _ => none
    else none
  | _, _ => none

/-- Modelled from the spec: the engine's reading of one order directive,
`<column> ASC` or `<column> DESC`, as the "comes no later than" test on rows;
anything else is an engine-level error. -/
def compileOrder (t : Table) (text : String) : Option (Row → Row → Bool) :=
  match words text with
  | [c, d] =>
    match t.column c with
    | some get =>
      if d = "ASC" then some (fun a b => (get a).le (get b))
      else if d = "DESC" then some (fun a b => (get b).le (get a))
      else none
    | none => none
  | _ => none

/-- Reads every clause of a list, failing if one of them fails. -/
def compileAll {α β : Type} (f : α → Option β) : List α → Option (List β)
  | [] => some []
  | a :: as =>
    match f a, compileAll f as with
    | some b, some bs => some (b :: bs)
    | _, _ => none

/-- Rows that satisfy every predicate (logical AND). -/
def filterRows (ps : List (Row → Bool)) (rows : List Row) : List Row :=
  rows.filter (fun r => ps.all (fun p => p r))

/-- Modelled from the spec: `ORDER BY o1, ..., om`: stable sorts, the last
directive first, so that the first directive is the most significant; with no
directive the rows stay in storage order. -/
def sortRows (os : List (Row → Row → Bool)) (rows : List Row) : List Row :=
  os.foldr (fun o acc => acc.insertionSort (fun a b => o a b = true)) rows

/-- Modelled from the spec: `OFFSET k`, emitted for a positive offset only. -/
def skipRows (offset : Option Int) (rows : List Row) : List Row :=
  match offset with
  | some k => if k > 0 then rows.drop k.toNat else rows
  | none => rows

/-- Modelled from the spec: `LIMIT l`, emitted for a non-negative limit only. -/
def capRows (limit : Option Int) (rows : List Row) : List Row :=
  match limit with
  | some l => if l ≥ 0 then rows.take l.toNat else rows
  | none => rows

/-- Modelled from the spec: execution of a query on a table; `none` is an
engine-level query error. -/
def execute (q : Query) (t : Table) : Option (List Row) :=
  match compileAll (compileWhere t) q.wheres, compileAll (compileOrder t) q.orders with
  | some ps, some os => some (capRows q.limit (skipRows q.offset (sortRows os (filterRows ps t.rows))))
  | _, _ => none

/-- A ten-row table with identities 1 to 10 and one extra column `name`. -/
def sampleTable : Table :=
  { columns := ["name"],
    rows := [⟨1, 100, 205, [.text "kiwi"]⟩, ⟨2, 110, 204, [.text "apple"]⟩,
             ⟨3, 120, 203, [.text "plum"]⟩, ⟨4, 130, 202, [.text "fig"]⟩,
             ⟨5, 140, 201, [.text "pear"]⟩, ⟨6, 150, 200, [.text "lime"]⟩,
             ⟨7, 160, 199, [.text "date"]⟩, ⟨8, 170, 198, [.text "cherry"]⟩,
             ⟨9, 180, 197, [.text "grape"]⟩, ⟨10, 190, 196, [.text "banana"]⟩] }

/-- Modelled from the spec: truth of one predicate on one row of a table, or
`none` when the engine rejects the predicate. -/
def Predicate.holds (t : Table) (p : Predicate) (r : Row) : Option Bool :=
  (compileWhere t p).map (fun f => f r)

/-- The predicates that §4.1 steps 2-7 of the specification prescribe, in the
order of the steps: one per present field, none for an absent field. -/
def specPredicates (c : PaginationConditions) : List Predicate :=
  (c.GreaterThanID.map (fun v => (⟨"id > ?", [Value.num v]⟩ : Predicate))).toList ++
  (c.LessThanID.map (fun v => (⟨"id < ?", [Value.num v]⟩ : Predicate))).toList ++
  (c.CreatedAfter.map (fun v => (⟨"created_at >= ?", [Value.num v]⟩ : Predicate))).toList ++
  (c.CreatedBefore.map (fun v => (⟨"created_at <= ?", [Value.num v]⟩ : Predicate))).toList ++
  (c.UpdatedAfter.map (fun v => (⟨"updated_at >= ?", [Value.num v]⟩ : Predicate))).toList ++
  (c.UpdatedBefore.map (fun v => (⟨"updated_at <= ?", [Value.num v]⟩ : Predicate))).toList

/-- Modelled from the spec: `f` names a field of table `t` in the engine's
syntax: a single word (no space inside) that the table resolves to a column. -/
def Table.hasField (t : Table) (f : String) : Bool :=
  !(f.toList.contains ' ') && (t.column f).isSome

/-- A 25-row table with identities 1 to 25 and one extra column `name`. -/
def fruitTable : Table :=
  { columns := ["name"],
    rows := [⟨1, 1000, 2000, [.text "olive"]⟩, ⟨2, 1010, 1997, [.text "mango"]⟩,
             ⟨3, 1020, 1994, [.text "apple"]⟩, ⟨4, 1030, 1991, [.text "peach"]⟩,
             ⟨5, 1040, 1988, [.text "lemon"]⟩, ⟨6, 1050, 1985, [.text "grape"]⟩,
             ⟨7, 1060, 1982, [.text "melon"]⟩, ⟨8, 1070, 1979, [.text "guava"]⟩,
             ⟨9, 1080, 1976, [.text "berry"]⟩, ⟨10, 1090, 1973, [.text "quince"]⟩,
             ⟨11, 1100, 1970, [.text "plum"]⟩, ⟨12, 1110, 1967, [.text "pear"]⟩,
             ⟨13, 1120, 1964, [.text "fig"]⟩, ⟨14, 1130, 1961, [.text "date"]⟩,
             ⟨15, 1140, 1958, [.text "kiwi"]⟩, ⟨16, 1150, 1955, [.text "lime"]⟩,
             ⟨17, 1160, 1952, [.text "cherry"]⟩, ⟨18, 1170, 1949, [.text "banana"]⟩,
             ⟨19, 1180, 1946, [.text "papaya"]⟩, ⟨20, 1190, 1943, [.text "orange"]⟩,
             ⟨21, 1200, 1940, [.text "apricot"]⟩, ⟨22, 1210, 1937, [.text "currant"]⟩,
             ⟨23, 1220, 1934, [.text "nectarine"]⟩, ⟨24, 1230, 1931, [.text "tangerine"]⟩,
             ⟨25, 1240, 1928, [.text "coconut"]⟩] }

/-! ## The call at the level of memory

`ApplyPaginationConditions` receives the conditions struct by value; its ten
fields are pointers.  The definitions below replay the body of the function on
an explicit memory, so that what the call reads and what it leaves behind can
be stated.
-/

/-- A memory cell that one of the pointer fields can address. -/
inductive Cell where
  | int (i : Int)
  | uint (n : Nat)
  | str (s : String)
  | time (t : Int)
deriving DecidableEq, Repr

/-- The Go struct `PaginationConditions` (request.go, lines 10-21) as it lies in
memory: every field is a pointer, `none` for `nil`, otherwise the address of
the cell it points to. -/
structure ConditionsRef where
  Limit : Option Nat
  Offset : Option Nat
  SortBy : Option Nat
  Order : Option Nat
  GreaterThanID : Option Nat
  LessThanID : Option Nat
  CreatedAfter : Option Nat
  CreatedBefore : Option Nat
  UpdatedAfter : Option Nat
  UpdatedBefore : Option Nat
deriving DecidableEq, Repr

/-- Dereference of a `*int`; `none` only for an address that holds no `int`,
which a well-typed Go program never produces. -/
def derefInt (heap : List Cell) (p : Nat) : Option Int :=
  match heap[p]? with
  | some (.int i) => some i
  | _ => none

/-- Dereference of a `*uint`. -/
def derefUint (heap : List Cell) (p : Nat) : Option Nat :=
  match heap[p]? with
  | some (.uint n) => some n
  | _ => none

/-- Dereference of a `*string`. -/
def derefString (heap : List Cell) (p : Nat) : Option String :=
  match heap[p]? with
  | some (.str s) => some s
  | _ => none

/-- Dereference of a `*time.Time`. -/
def derefTime (heap : List Cell) (p : Nat) : Option Int :=
  match heap[p]? with
  | some (.time t) => some t
  | _ => none

/-- The value of one pointer field: absent for `nil`, otherwise the content of
the addressed cell. -/
def loadField {α : Type} (deref : List Cell → Nat → Option α) (heap : List Cell) :
    Option Nat → Option (Option α)
  | none => some none
  | some p => (deref heap p).map some

/-- The conditions value that a struct of pointers denotes in a memory. -/
def ConditionsRef.load (r : ConditionsRef) (heap : List Cell) : Option PaginationConditions :=
  (loadField derefInt heap r.Limit).bind fun limit =>
  (loadField derefInt heap r.Offset).bind fun offset =>
  (loadField derefString heap r.SortBy).bind fun sortBy =>
  (loadField derefString heap r.Order).bind fun order =>
  (loadField derefUint heap r.GreaterThanID).bind fun greaterThanID =>
  (loadField derefUint heap r.LessThanID).bind fun lessThanID =>
  (loadField derefTime heap r.CreatedAfter).bind fun createdAfter =>
  (loadField derefTime heap r.CreatedBefore).bind fun createdBefore =>
  (loadField derefTime heap r.UpdatedAfter).bind fun updatedAfter =>
  (loadField derefTime heap r.UpdatedBefore).bind fun updatedBefore =>
  some { Limit := limit, Offset := offset, SortBy := sortBy, Order := order,
         GreaterThanID := greaterThanID, LessThanID := lessThanID,
         CreatedAfter := createdAfter, CreatedBefore := createdBefore,
         UpdatedAfter := updatedAfter, UpdatedBefore := updatedBefore }

/-- The state of one call: the memory, the callee's copy of the conditions
struct, and the local variable `query`. -/
structure Frame where
  heap : List Cell
  conditions : ConditionsRef
  query : Query
deriving DecidableEq, Repr

/-- Statement of request.go lines 25-27 on a frame. -/
def stepOffset (m : Frame) : Option Frame :=
  match m.conditions.Offset with
  | none => some m
  | some p =>
    match derefInt m.heap p with
    | some n => if n > 0 then some { m with query := m.query.Offset n } else some m
    | none => none

/-- Statement of request.go lines 30-32 on a frame. -/
def stepGreaterThanID (m : Frame) : Option Frame :=
  match m.conditions.GreaterThanID with
  | none => some m
  | some p =>
    match derefUint m.heap p with
    | some v => some { m with query := m.query.Where "id > ?" (Value.num v) }
    | none => none

/-- Statement of request.go lines 33-35 on a frame. -/
def stepLessThanID (m : Frame) : Option Frame :=
  match m.conditions.LessThanID with
  | none => some m
  | some p =>
    match derefUint m.heap p with
    | some v => some { m with query := m.query.Where "id < ?" (Value.num v) }
    | none => none

/-- Statement of request.go lines 38-40 on a frame. -/
def stepCreatedAfter (m : Frame) : Option Frame :=
  match m.conditions.CreatedAfter with
  | none => some m
  | some p =>
    match derefTime m.heap p with
    | some v => some { m with query := m.query.Where "created_at >= ?" (Value.num v) }
    | none => none

/-- Statement of request.go lines 41-43 on a frame. -/
def stepCreatedBefore (m : Frame) : Option Frame :=
  match m.conditions.CreatedBefore with
  | none => some m
  | some p =>
    match derefTime m.heap p with
    | some v => some { m with query := m.query.Where "created_at <= ?" (Value.num v) }
    | none => none

/-- Statement of request.go lines 44-46 on a frame. -/
def stepUpdatedAfter (m : Frame) : Option Frame :=
  match m.conditions.UpdatedAfter with
  | none => some m
  | some p =>
    match derefTime m.heap p with
    | some v => some { m with query := m.query.Where "updated_at >= ?" (Value.num v) }
    | none => none

/-- Statement of request.go lines 47-49 on a frame. -/
def stepUpdatedBefore (m : Frame) : Option Frame :=
  match m.conditions.UpdatedBefore with
  | none => some m
  | some p =>
    match derefTime m.heap p with
    | some v => some { m with query := m.query.Where "updated_at <= ?" (Value.num v) }
    | none => none

/-- Statements of request.go lines 52-60 on a frame. -/
def stepOrder (m : Frame) : Option Frame :=
  let sortBy : Option String :=
    match m.conditions.SortBy with
    | none => some "id"
    | some p => derefString m.heap p
  let order : Option String :=
    match m.conditions.Order with
    | none => some "DESC"
    | some p => derefString m.heap p
  match sortBy, order with
  | some s, some o => some { m with query := m.query.Order (s ++ " " ++ o) }
  | _, _ => none

/-- Statement of request.go lines 63-65 on a frame. -/
def stepLimit (m : Frame) : Option Frame :=
  match m.conditions.Limit with
  | none => some m
  | some p =>
    match derefInt m.heap p with
    | some n => if n > 0 then some { m with query := m.query.Limit n } else some m
    | none => none

/-- The body of `ApplyPaginationConditions` (request.go, lines 23-68) run on a
frame, statement after statement; the value returned by the call is the
`query` of the final frame. -/
def callApplyPaginationConditions (m : Frame) : Option Frame :=
  (stepOffset m).bind fun m =>
  (stepGreaterThanID m).bind fun m =>
  (stepLessThanID m).bind fun m =>
  (stepCreatedAfter m).bind fun m =>
  (stepCreatedBefore m).bind fun m =>
  (stepUpdatedAfter m).bind fun m =>
  (stepUpdatedBefore m).bind fun m =>
  (stepOrder m).bind fun m =>
  stepLimit m

/-- The struct whose ten pointer fields are all `nil`. -/
def ConditionsRef.nil : ConditionsRef :=
  { Limit := none, Offset := none, SortBy := none, Order := none,
    GreaterThanID := none, LessThanID := none, CreatedAfter := none,
    CreatedBefore := none, UpdatedAfter := none, UpdatedBefore := none }

/-! ## Structure of the composed query -/

@[simp] theorem Query.Offset_offset (q : Query) (n : Int) : (q.Offset n).offset = some n := rfl
@[simp] theorem Query.Offset_wheres (q : Query) (n : Int) : (q.Offset n).wheres = q.wheres := rfl
@[simp] theorem Query.Offset_orders (q : Query) (n : Int) : (q.Offset n).orders = q.orders := rfl
@[simp] theorem Query.Offset_limit (q : Query) (n : Int) : (q.Offset n).limit = q.limit := rfl
@[simp] theorem Query.Offset_rest (q : Query) (n : Int) : (q.Offset n).rest = q.rest := rfl
@[simp] theorem Query.Limit_offset (q : Query) (n : Int) : (q.Limit n).offset = q.offset := rfl
@[simp] theorem Query.Limit_wheres (q : Query) (n : Int) : (q.Limit n).wheres = q.wheres := rfl
@[simp] theorem Query.Limit_orders (q : Query) (n : Int) : (q.Limit n).orders = q.orders := rfl
@[simp] theorem Query.Limit_limit (q : Query) (n : Int) : (q.Limit n).limit = some n := rfl
@[simp] theorem Query.Limit_rest (q : Query) (n : Int) : (q.Limit n).rest = q.rest := rfl
@[simp] theorem Query.Where_offset (q : Query) (s : String) (v : Value) :
    (q.Where s v).offset = q.offset := rfl
@[simp] theorem Query.Where_wheres (q : Query) (s : String) (v : Value) :
    (q.Where s v).wheres = q.wheres ++ [⟨s, [v]⟩] := rfl
@[simp] theorem Query.Where_orders (q : Query) (s : String) (v : Value) :
    (q.Where s v).orders = q.orders := rfl
@[simp] theorem Query.Where_limit (q : Query) (s : String) (v : Value) :
    (q.Where s v).limit = q.limit := rfl
@[simp] theorem Query.Where_rest (q : Query) (s : String) (v : Value) :
    (q.Where s v).rest = q.rest := rfl

/-- The directive built by `fmt.Sprintf("%s %s", ..)` always contains the
separating space, so it is never the empty text. -/
theorem orderDirective_ne_empty (c : PaginationConditions) : orderDirective c ≠ "" := by
  intro h
  have hlen := congrArg String.length h
  simp [orderDirective] at hlen
  exact absurd hlen.1.2 (by decide)

theorem Query.Order_of_ne {s : String} (q : Query) (h : s ≠ "") :
    q.Order s = { q with orders := q.orders ++ [s] } := by
  simp [Query.Order, h]

theorem applyOffset_frame (q : Query) (c : PaginationConditions) :
    (applyOffset q c).wheres = q.wheres ∧ (applyOffset q c).orders = q.orders ∧
    (applyOffset q c).limit = q.limit ∧ (applyOffset q c).rest = q.rest := by
  unfold applyOffset
  split
  · split <;> simp
  · simp

theorem applyIDBounds_frame (q : Query) (c : PaginationConditions) :
    (applyIDBounds q c).offset = q.offset ∧ (applyIDBounds q c).orders = q.orders ∧
    (applyIDBounds q c).limit = q.limit ∧ (applyIDBounds q c).rest = q.rest := by
  unfold applyIDBounds
  cases c.GreaterThanID <;> cases c.LessThanID <;> simp

theorem applyIDBounds_wheres (q : Query) (c : PaginationConditions) :
    (applyIDBounds q c).wheres = q.wheres ++
      ((c.GreaterThanID.map (fun v => (⟨"id > ?", [Value.num v]⟩ : Predicate))).toList ++
       (c.LessThanID.map (fun v => (⟨"id < ?", [Value.num v]⟩ : Predicate))).toList) := by
  unfold applyIDBounds
  cases c.GreaterThanID <;> cases c.LessThanID <;> simp

theorem applyDateFilters_frame (q : Query) (c : PaginationConditions) :
    (applyDateFilters q c).offset = q.offset ∧ (applyDateFilters q c).orders = q.orders ∧
    (applyDateFilters q c).limit = q.limit ∧ (applyDateFilters q c).rest = q.rest := by
  unfold applyDateFilters
  cases c.CreatedAfter <;> cases c.CreatedBefore <;> cases c.UpdatedAfter <;>
    cases c.UpdatedBefore <;> simp

theorem applyDateFilters_wheres (q : Query) (c : PaginationConditions) :
    (applyDateFilters q c).wheres = q.wheres ++
      ((c.CreatedAfter.map (fun v => (⟨"created_at >= ?", [Value.num v]⟩ : Predicate))).toList ++
       (c.CreatedBefore.map (fun v => (⟨"created_at <= ?", [Value.num v]⟩ : Predicate))).toList ++
       (c.UpdatedAfter.map (fun v => (⟨"updated_at >= ?", [Value.num v]⟩ : Predicate))).toList ++
       (c.UpdatedBefore.map (fun v => (⟨"updated_at <= ?", [Value.num v]⟩ : Predicate))).toList) := by
  unfold applyDateFilters
  cases c.CreatedAfter <;> cases c.CreatedBefore <;> cases c.UpdatedAfter <;>
    cases c.UpdatedBefore <;> simp

theorem applyLimit_frame (q : Query) (c : PaginationConditions) :
    (applyLimit q c).offset = q.offset ∧ (applyLimit q c).wheres = q.wheres ∧
    (applyLimit q c).orders = q.orders ∧ (applyLimit q c).rest = q.rest := by
  unfold applyLimit
  split
  · split <;> simp
  · simp

theorem apply_offset (q : Query) (c : PaginationConditions) :
    (ApplyPaginationConditions q c).offset = (applyOffset q c).offset := by
  simp only [ApplyPaginationConditions, Query.Order_of_ne _ (orderDirective_ne_empty c),
    (applyLimit_frame _ c).1, (applyDateFilters_frame _ c).1, (applyIDBounds_frame _ c).1]

theorem apply_wheres (q : Query) (c : PaginationConditions) :
    (ApplyPaginationConditions q c).wheres = q.wheres ++ specPredicates c := by
  simp only [ApplyPaginationConditions, Query.Order_of_ne _ (orderDirective_ne_empty c),
    (applyLimit_frame _ c).2.1, applyDateFilters_wheres, applyIDBounds_wheres,
    (applyOffset_frame q c).1, specPredicates, List.append_assoc]

theorem apply_orders (q : Query) (c : PaginationConditions) :
    (ApplyPaginationConditions q c).orders = q.orders ++ [orderDirective c] := by
  simp only [ApplyPaginationConditions, Query.Order_of_ne _ (orderDirective_ne_empty c),
    (applyLimit_frame _ c).2.2.1, (applyDateFilters_frame _ c).2.1,
    (applyIDBounds_frame _ c).2.1, (applyOffset_frame q c).2.1]

theorem apply_limit (q : Query) (c : PaginationConditions) :
    (ApplyPaginationConditions q c).limit = (applyLimit q c).limit := by
  have h : ∀ q1 q2 : Query, q1.limit = q2.limit → (applyLimit q1 c).limit = (applyLimit q2 c).limit := by
    intro q1 q2 h12
    unfold applyLimit
    split
    · split <;> simp [h12]
    · exact h12
  simp only [ApplyPaginationConditions, Query.Order_of_ne _ (orderDirective_ne_empty c)]
  apply h
  simp only [(applyDateFilters_frame _ c).2.2.1, (applyIDBounds_frame _ c).2.2.1,
    (applyOffset_frame q c).2.2.1]

theorem apply_rest (q : Query) (c : PaginationConditions) :
    (ApplyPaginationConditions q c).rest = q.rest := by
  simp only [ApplyPaginationConditions, Query.Order_of_ne _ (orderDirective_ne_empty c),
    (applyLimit_frame _ c).2.2.2, (applyDateFilters_frame _ c).2.2.2,
    (applyIDBounds_frame _ c).2.2.2, (applyOffset_frame q c).2.2.2]

/-! ## Offset, limit and order clauses -/

/-- C1: when `Offset` is absent or not positive the applicator adds no offset
clause, so the composed query keeps the offset of the base query; when `Offset`
is present with a positive value `k` the composed offset is `k`.  Scenario
`{offset: 0, limit: 5}` on a base query without clauses: no offset, limit 5. -/
theorem offset_policy (q : Query) (c : PaginationConditions) :
    ((c.Offset = none ∨ ∃ k, c.Offset = some k ∧ k ≤ 0) →
      (ApplyPaginationConditions q c).offset = q.offset) ∧
    (∀ k : Int, c.Offset = some k → 0 < k →
      (ApplyPaginationConditions q c).offset = some k) ∧
    ((ApplyPaginationConditions Query.unconstrained
        { PaginationConditions.absent with Offset := some 0, Limit := some 5 }).offset = none ∧
     (ApplyPaginationConditions Query.unconstrained
        { PaginationConditions.absent with Offset := some 0, Limit := some 5 }).limit = some 5) := by
  refine ⟨?_, ?_, by decide⟩
  · rintro (h | ⟨k, h, hk⟩)
    · rw [apply_offset]; simp [applyOffset, h]
    · rw [apply_offset]; simp only [applyOffset, h]
      rw [if_neg (not_lt.mpr hk)]
  · intro k h hk
    rw [apply_offset]; simp [applyOffset, h, hk]

/-- Instances of C1: offset `-2` on a base query that already skips 4 rows
keeps the 4; offset 9 on the same base query replaces it by 9. -/
theorem offset_policy_witness :
    (ApplyPaginationConditions { Query.unconstrained with offset := some 4 }
        { PaginationConditions.absent with Offset := some (-2) }).offset = some 4 ∧
    (ApplyPaginationConditions { Query.unconstrained with offset := some 4 }
        { PaginationConditions.absent with Offset := some 9 }).offset = some 9 :=
  ⟨(offset_policy { Query.unconstrained with offset := some 4 }
      { PaginationConditions.absent with Offset := some (-2) }).1
      (Or.inr ⟨-2, rfl, by decide⟩),
   (offset_policy { Query.unconstrained with offset := some 4 }
      { PaginationConditions.absent with Offset := some 9 }).2.1 9 rfl (by decide)⟩

theorem capRows_length_le (k : Int) (hk : 0 ≤ k) (rows : List Row) :
    ((capRows (some k) rows).length : Int) ≤ k := by
  simp only [capRows, ge_iff_le, hk, if_true, List.length_take]
  have h : ((min k.toNat rows.length : Nat) : Int) ≤ (k.toNat : Int) :=
    Int.ofNat_le.mpr (Nat.min_le_left _ _)
  rw [Int.toNat_of_nonneg hk] at h
  exact h

theorem execute_length_le (q : Query) (t : Table) (k : Int) (hq : q.limit = some k)
    (hk : 0 ≤ k) (rows : List Row) (h : execute q t = some rows) :
    (rows.length : Int) ≤ k := by
  unfold execute at h
  split at h
  · simp only [Option.some.injEq] at h
    rw [← h, hq]
    exact capRows_length_le k hk _
  · exact absurd h (by simp)

/-- C2 (as stated, refuted): with `Limit` absent the composed query is not
unbounded when the base query already carries a limit: here the caller's limit 7
survives, and the ten-row table yields 7 rows only. -/
theorem limit_absent_not_unbounded :
    PaginationConditions.absent.Limit = none ∧
    (ApplyPaginationConditions { Query.unconstrained with limit := some 7 }
        PaginationConditions.absent).limit = some 7 ∧
    (execute (ApplyPaginationConditions { Query.unconstrained with limit := some 7 }
        PaginationConditions.absent) sampleTable).map List.length = some 7 ∧
    sampleTable.rows.length = 10 := by
  decide

/-- C2 (amended): when `Limit` is absent or not positive the applicator adds no
limit clause, so the composed query keeps the limit of the base query (and is
unbounded when the base query had none); when `Limit` is present with a positive
value `k` the composed limit is `k`, and every execution of the composed query
returns at most `k` rows. -/
theorem limit_policy (q : Query) (c : PaginationConditions) :
    ((c.Limit = none ∨ ∃ k, c.Limit = some k ∧ k ≤ 0) →
      (ApplyPaginationConditions q c).limit = q.limit ∧
      (q.limit = none → (ApplyPaginationConditions q c).limit = none)) ∧
    (∀ k : Int, c.Limit = some k → 0 < k →
      (ApplyPaginationConditions q c).limit = some k ∧
      ∀ (t : Table) (rows : List Row),
        execute (ApplyPaginationConditions q c) t = some rows → (rows.length : Int) ≤ k) := by
  constructor
  · intro h
    have hl : (ApplyPaginationConditions q c).limit = q.limit := by
      rcases h with (h | ⟨k, h, hk⟩)
      · rw [apply_limit]; simp [applyLimit, h]
      · rw [apply_limit]; simp only [applyLimit, h]
        rw [if_neg (not_lt.mpr hk)]
    exact ⟨hl, fun hn => hl.trans hn⟩
  · intro k h hk
    have hl : (ApplyPaginationConditions q c).limit = some k := by
      rw [apply_limit]; simp [applyLimit, h, hk]
    exact ⟨hl, fun t rows hr => execute_length_le _ t k hl (le_of_lt hk) rows hr⟩

/-- Instances of amended C2: limit 0 on a base query without limit stays
unbounded; limit 3 on the ten-row table returns the three rows of highest
identity, which are at most 3 rows. -/
theorem limit_policy_witness :
    (ApplyPaginationConditions Query.unconstrained
        { PaginationConditions.absent with Limit := some 0 }).limit = none ∧
    execute (ApplyPaginationConditions Query.unconstrained
        { PaginationConditions.absent with Limit := some 3 }) sampleTable =
      some [⟨10, 190, 196, [.text "banana"]⟩, ⟨9, 180, 197, [.text "grape"]⟩,
            ⟨8, 170, 198, [.text "cherry"]⟩] ∧
    (([⟨10, 190, 196, [.text "banana"]⟩, ⟨9, 180, 197, [.text "grape"]⟩,
       ⟨8, 170, 198, [.text "cherry"]⟩] : List Row).length : Int) ≤ 3 :=
  ⟨((limit_policy Query.unconstrained
      { PaginationConditions.absent with Limit := some 0 }).1
      (Or.inr ⟨0, rfl, le_refl 0⟩)).2 rfl,
   by decide,
   ((limit_policy Query.unconstrained
      { PaginationConditions.absent with Limit := some 3 }).2 3 rfl (by decide)).2
      sampleTable _ (by decide)⟩

/-- C3 (as stated, refuted): on a base query that is already ordered by `name`
the composed query carries two order directives, not exactly one. -/
theorem order_clause_not_single :
    (ApplyPaginationConditions { Query.unconstrained with orders := ["name ASC"] }
        PaginationConditions.absent).orders = ["name ASC", "id DESC"] ∧
    (ApplyPaginationConditions { Query.unconstrained with orders := ["name ASC"] }
        PaginationConditions.absent).orders.length = 2 := by
  decide

/-- C3 (amended): for all conditions and every base query the applicator adds
exactly one order directive, after those of the base query; it is the single
text `<field> <direction>` where the field is `SortBy` or `id` when absent and
the direction is `Order` or `DESC` when absent.  Hence a base query without
ordering yields a composed query with exactly that one order clause. -/
theorem order_clause_added_once (q : Query) (c : PaginationConditions) :
    (ApplyPaginationConditions q c).orders =
      q.orders ++ [c.SortBy.getD "id" ++ " " ++ c.Order.getD "DESC"] ∧
    (ApplyPaginationConditions q c).orders.length = q.orders.length + 1 ∧
    (q.orders = [] →
      (ApplyPaginationConditions q c).orders =
        [c.SortBy.getD "id" ++ " " ++ c.Order.getD "DESC"]) := by
  have hd : orderDirective c = c.SortBy.getD "id" ++ " " ++ c.Order.getD "DESC" := by
    unfold orderDirective
    cases c.SortBy <;> cases c.Order <;> rfl
  have h := apply_orders q c
  rw [hd] at h
  refine ⟨h, by rw [h]; simp, fun hq => by rw [h, hq]; rfl⟩

/-- Instance of amended C3: conditions that only name the sort field, on a base
query without ordering, give the single clause `name DESC`. -/
theorem order_clause_added_once_witness :
    (ApplyPaginationConditions Query.unconstrained
        { PaginationConditions.absent with SortBy := some "name" }).orders = ["name DESC"] :=
  (order_clause_added_once Query.unconstrained
    { PaginationConditions.absent with SortBy := some "name" }).2.2 rfl

/-! ## Filter predicates -/

theorem holds_id_gt (t : Table) (r : Row) (v : Nat) :
    Predicate.holds t ⟨"id > ?", [.num v]⟩ r = some (decide (v < r.id)) := by
  show some (CmpOp.gt.eval (.num r.id) (.num v)) = _
  by_cases h : v < r.id
  · simp [CmpOp.eval, Value.le, h]
  · simp [CmpOp.eval, Value.le, h]; omega

theorem holds_id_lt (t : Table) (r : Row) (v : Nat) :
    Predicate.holds t ⟨"id < ?", [.num v]⟩ r = some (decide (r.id < v)) := by
  show some (CmpOp.lt.eval (.num r.id) (.num v)) = _
  by_cases h : r.id < v
  · simp [CmpOp.eval, Value.le, h]
  · simp [CmpOp.eval, Value.le, h]; omega

theorem holds_created_ge (t : Table) (r : Row) (v : Int) :
    Predicate.holds t ⟨"created_at >= ?", [.num v]⟩ r = some (decide (v ≤ r.created_at)) := by
  show some (CmpOp.ge.eval (.num r.created_at) (.num v)) = _
  simp [CmpOp.eval, Value.le]

theorem holds_created_le (t : Table) (r : Row) (v : Int) :
    Predicate.holds t ⟨"created_at <= ?", [.num v]⟩ r = some (decide (r.created_at ≤ v)) := by
  show some (CmpOp.le.eval (.num r.created_at) (.num v)) = _
  simp [CmpOp.eval, Value.le]

theorem holds_updated_ge (t : Table) (r : Row) (v : Int) :
    Predicate.holds t ⟨"updated_at >= ?", [.num v]⟩ r = some (decide (v ≤ r.updated_at)) := by
  show some (CmpOp.ge.eval (.num r.updated_at) (.num v)) = _
  simp [CmpOp.eval, Value.le]

theorem holds_updated_le (t : Table) (r : Row) (v : Int) :
    Predicate.holds t ⟨"updated_at <= ?", [.num v]⟩ r = some (decide (r.updated_at ≤ v)) := by
  show some (CmpOp.le.eval (.num r.updated_at) (.num v)) = _
  simp [CmpOp.eval, Value.le]

/-- C4: the predicates added by the applicator are exactly those of the
specification's steps 2-7, appended in that fixed order after the predicates of
the base query, one per present field and none for an absent one; on every row
`id > v` and `id < v` are strict, the four timestamp predicates are inclusive;
a present `GreaterThanID = 0` adds its predicate like any other value. -/
theorem predicates_added (q : Query) (c : PaginationConditions) :
    (ApplyPaginationConditions q c).wheres = q.wheres ++ specPredicates c ∧
    (∀ (t : Table) (r : Row) (v : Nat),
      Predicate.holds t ⟨"id > ?", [.num v]⟩ r = some (decide (v < r.id)) ∧
      Predicate.holds t ⟨"id < ?", [.num v]⟩ r = some (decide (r.id < v))) ∧
    (∀ (t : Table) (r : Row) (v : Int),
      Predicate.holds t ⟨"created_at >= ?", [.num v]⟩ r = some (decide (v ≤ r.created_at)) ∧
      Predicate.holds t ⟨"created_at <= ?", [.num v]⟩ r = some (decide (r.created_at ≤ v)) ∧
      Predicate.holds t ⟨"updated_at >= ?", [.num v]⟩ r = some (decide (v ≤ r.updated_at)) ∧
      Predicate.holds t ⟨"updated_at <= ?", [.num v]⟩ r = some (decide (r.updated_at ≤ v))) ∧
    (ApplyPaginationConditions Query.unconstrained
        { PaginationConditions.absent with GreaterThanID := some 0 }).wheres =
      [⟨"id > ?", [.num 0]⟩] ∧
    (ApplyPaginationConditions Query.unconstrained
        { Limit := none, Offset := none, SortBy := none, Order := none,
          GreaterThanID := some 1, LessThanID := some 2, CreatedAfter := some 3,
          CreatedBefore := some 4, UpdatedAfter := some 5, UpdatedBefore := some 6 }).wheres =
      [⟨"id > ?", [.num 1]⟩, ⟨"id < ?", [.num 2]⟩, ⟨"created_at >= ?", [.num 3]⟩,
       ⟨"created_at <= ?", [.num 4]⟩, ⟨"updated_at >= ?", [.num 5]⟩,
       ⟨"updated_at <= ?", [.num 6]⟩] :=
  ⟨apply_wheres q c,
   fun t r v => ⟨holds_id_gt t r v, holds_id_lt t r v⟩,
   fun t r v => ⟨holds_created_ge t r v, holds_created_le t r v,
     holds_updated_ge t r v, holds_updated_le t r v⟩,
   by decide, by decide⟩

theorem compileAll_append {α β : Type} (f : α → Option β) (xs ys : List α) :
    compileAll f (xs ++ ys) =
      (compileAll f xs).bind (fun bs => (compileAll f ys).map (fun ns => bs ++ ns)) := by
  induction xs with
  | nil => cases h : compileAll f ys <;> simp [compileAll, h]
  | cons x xs ih =>
    rw [List.cons_append, compileAll, ih, compileAll]
    cases f x <;> cases compileAll f xs <;> cases compileAll f ys <;> simp

/-- C6: every predicate of the base query is still present, unchanged and in
the same order, in the composed query: the base predicates are a prefix of the
composed predicates; the engine reads the composed list as the base predicates
followed by the added ones, and a row satisfies the composed list exactly when
it satisfies the base predicates AND the added ones. -/
theorem base_predicates_kept (q : Query) (c : PaginationConditions) :
    q.wheres <+: (ApplyPaginationConditions q c).wheres ∧
    (∀ t : Table, compileAll (compileWhere t) (ApplyPaginationConditions q c).wheres =
      (compileAll (compileWhere t) q.wheres).bind (fun bs =>
        (compileAll (compileWhere t) (specPredicates c)).map (fun ns => bs ++ ns))) ∧
    (∀ (bs ns : List (Row → Bool)) (rows : List Row),
      filterRows (bs ++ ns) rows = (filterRows bs rows).filter (fun r => ns.all (fun p => p r))) := by
  refine ⟨?_, ?_, ?_⟩
  · rw [apply_wheres]; exact List.prefix_append _ _
  · intro t; rw [apply_wheres]; exact compileAll_append _ _ _
  · intro bs ns rows
    simp only [filterRows, List.filter_filter, List.all_append]
    congr 1
    funext r
    exact Bool.and_comm _ _

/-- C8: with all ten fields absent the applicator changes the base query only
by appending the order directive `id DESC`; offset, limit, predicates and every
other component are those of the base query. -/
theorem absent_conditions_only_order (q : Query) :
    ApplyPaginationConditions q PaginationConditions.absent =
      { q with orders := q.orders ++ ["id DESC"] } ∧
    (ApplyPaginationConditions q PaginationConditions.absent).offset = q.offset ∧
    (ApplyPaginationConditions q PaginationConditions.absent).limit = q.limit ∧
    (ApplyPaginationConditions q PaginationConditions.absent).wheres = q.wheres ∧
    ApplyPaginationConditions Query.unconstrained PaginationConditions.absent =
      { offset := none, wheres := [], orders := ["id DESC"], limit := none, rest := [] } := by
  have h : ApplyPaginationConditions q PaginationConditions.absent =
      { q with orders := q.orders ++ ["id DESC"] } := by
    simp only [ApplyPaginationConditions, Query.Order_of_ne _ (orderDirective_ne_empty _)]
    rfl
  refine ⟨h, ?_, ?_, ?_, by decide⟩ <;> rw [h]

theorem execute_some {q : Query} {t : Table} {rows : List Row} (h : execute q t = some rows) :
    ∃ ps os, compileAll (compileWhere t) q.wheres = some ps ∧
      compileAll (compileOrder t) q.orders = some os ∧
      rows = capRows q.limit (skipRows q.offset (sortRows os (filterRows ps t.rows))) := by
  unfold execute at h
  split at h
  · rename_i ps os hp ho
    exact ⟨ps, os, hp, ho, (Option.some.inj h).symm⟩
  · exact absurd h (by simp)

theorem execute_of_compiled {q : Query} {t : Table} {ps : List (Row → Bool)}
    {os : List (Row → Row → Bool)} (hp : compileAll (compileWhere t) q.wheres = some ps)
    (ho : compileAll (compileOrder t) q.orders = some os) :
    execute q t = some (capRows q.limit (skipRows q.offset (sortRows os (filterRows ps t.rows)))) := by
  unfold execute
  rw [hp, ho]

theorem compileAll_append_some {α β : Type} {f : α → Option β} {xs ys : List α} {zs : List β}
    (h : compileAll f (xs ++ ys) = some zs) :
    ∃ bs ns, compileAll f xs = some bs ∧ compileAll f ys = some ns ∧ zs = bs ++ ns := by
  rw [compileAll_append] at h
  cases hx : compileAll f xs with
  | none => rw [hx] at h; exact absurd h (by simp)
  | some bs =>
    cases hy : compileAll f ys with
    | none => rw [hx, hy] at h; exact absurd h (by simp)
    | some ns =>
      rw [hx, hy] at h
      exact ⟨bs, ns, rfl, rfl, (Option.some.inj h).symm⟩

theorem sortRows_perm (os : List (Row → Row → Bool)) (rows : List Row) :
    (sortRows os rows).Perm rows := by
  induction os with
  | nil => exact List.Perm.refl _
  | cons o os ih => exact (List.perm_insertionSort _ _).trans ih

theorem mem_sortRows {os : List (Row → Row → Bool)} {rows : List Row} {r : Row} :
    r ∈ sortRows os rows ↔ r ∈ rows :=
  (sortRows_perm os rows).mem_iff

theorem skipRows_subset (o : Option Int) (rows : List Row) : skipRows o rows ⊆ rows := by
  unfold skipRows
  split
  · split
    · exact List.drop_subset _ _
    · exact List.Subset.refl _
  · exact List.Subset.refl _

theorem capRows_subset (l : Option Int) (rows : List Row) : capRows l rows ⊆ rows := by
  unfold capRows
  split
  · split
    · exact List.take_subset _ _
    · exact List.Subset.refl _
  · exact List.Subset.refl _

theorem mem_filterRows {ps : List (Row → Bool)} {rows : List Row} {r : Row} :
    r ∈ filterRows ps rows ↔ r ∈ rows ∧ ps.all (fun p => p r) = true := by
  simp only [filterRows, List.mem_filter]

/-- C5 (as stated, refuted): a base query that carries `LIMIT 1` returns the
first stored row; the composed query (conditions all absent) orders by
`id DESC` before limiting and returns the row of identity 10, which the base
query does not return. -/
theorem composed_not_subset_of_limited_base :
    execute { Query.unconstrained with limit := some 1 } sampleTable =
      some [⟨1, 100, 205, [.text "kiwi"]⟩] ∧
    execute (ApplyPaginationConditions { Query.unconstrained with limit := some 1 }
        PaginationConditions.absent) sampleTable =
      some [⟨10, 190, 196, [.text "banana"]⟩] ∧
    ¬ (([⟨10, 190, 196, [.text "banana"]⟩] : List Row) ⊆ [⟨1, 100, 205, [.text "kiwi"]⟩]) := by
  refine ⟨by decide, by decide, ?_⟩
  intro h
  have := h (List.mem_singleton.mpr rfl)
  exact absurd this (by decide)

/-- C5 (amended): for every base query, conditions and table, each row returned
by the composed query is a row of the table that satisfies every predicate of
the base query; when the base query carries no offset and no limit, the base
query executes as well and the composed result set is a subset of its result
set. -/
theorem composed_narrows (q : Query) (c : PaginationConditions) (t : Table) (rows : List Row)
    (h : execute (ApplyPaginationConditions q c) t = some rows) :
    (∃ bs, compileAll (compileWhere t) q.wheres = some bs ∧
      ∀ r ∈ rows, r ∈ t.rows ∧ bs.all (fun p => p r) = true) ∧
    (q.offset = none → q.limit = none →
      ∃ base, execute q t = some base ∧ rows ⊆ base) := by
  obtain ⟨ps, os, hp, ho, hrows⟩ := execute_some h
  rw [apply_wheres] at hp
  rw [apply_orders] at ho
  obtain ⟨bs, ns, hbs, -, hps⟩ := compileAll_append_some hp
  obtain ⟨bo, -, hbo, -, -⟩ := compileAll_append_some ho
  have hmem : ∀ r ∈ rows, r ∈ t.rows ∧ bs.all (fun p => p r) = true := by
    intro r hr
    rw [hrows] at hr
    have h1 := mem_sortRows.mp (skipRows_subset _ _ (capRows_subset _ _ hr))
    rw [hps, mem_filterRows, List.all_append, Bool.and_eq_true] at h1
    exact ⟨h1.1, h1.2.1⟩
  refine ⟨⟨bs, hbs, hmem⟩, ?_⟩
  intro hoff hlim
  refine ⟨_, execute_of_compiled hbs hbo, ?_⟩
  intro r hr
  rw [hoff, hlim]
  show r ∈ sortRows bo (filterRows bs t.rows)
  exact mem_sortRows.mpr (mem_filterRows.mpr (hmem r hr))

/-- Instance of amended C5: on a base query that only filters `id > 2`, the
conditions `{greaterThanID: 7, limit: 2}` return rows 10 and 9, both among the
eight rows of the base query. -/
theorem composed_narrows_witness :
    execute (ApplyPaginationConditions
        { Query.unconstrained with wheres := [⟨"id > ?", [.num 2]⟩] }
        { PaginationConditions.absent with GreaterThanID := some 7, Limit := some 2 })
        sampleTable =
      some [⟨10, 190, 196, [.text "banana"]⟩, ⟨9, 180, 197, [.text "grape"]⟩] ∧
    ∃ base, execute { Query.unconstrained with wheres := [⟨"id > ?", [.num 2]⟩] } sampleTable =
        some base ∧
      ([⟨10, 190, 196, [.text "banana"]⟩, ⟨9, 180, 197, [.text "grape"]⟩] : List Row) ⊆ base :=
  ⟨by decide,
   (composed_narrows { Query.unconstrained with wheres := [⟨"id > ?", [.num 2]⟩] }
      { PaginationConditions.absent with GreaterThanID := some 7, Limit := some 2 }
      sampleTable _ (by decide)).2 rfl rfl⟩

theorem gt_eval_num (x : Nat) (a : Nat) :
    CmpOp.gt.eval (.num x) (.num a) = decide (a < x) := by
  by_cases h : a < x
  · simp [CmpOp.eval, Value.le, h]
  · simp [CmpOp.eval, Value.le, h]; omega

theorem lt_eval_num (x : Nat) (b : Nat) :
    CmpOp.lt.eval (.num x) (.num b) = decide (x < b) := by
  by_cases h : x < b
  · simp [CmpOp.eval, Value.le, h]
  · simp [CmpOp.eval, Value.le, h]; omega

/-- C7: on a base query without clauses, the conditions `GreaterThanID = a`,
`LessThanID = b` with `a < b` execute without engine error on every table and
return exactly the rows of the table whose identity lies strictly between `a`
and `b`: only such rows, and every such row (as often as the table holds it). -/
theorem id_window (t : Table) (a b : Nat) (_hab : a < b) :
    ∃ rows, execute (ApplyPaginationConditions Query.unconstrained
        { PaginationConditions.absent with GreaterThanID := some a, LessThanID := some b }) t =
        some rows ∧
      rows.Perm (t.rows.filter (fun r => decide (a < r.id) && decide (r.id < b))) ∧
      ∀ r, r ∈ rows ↔ (r ∈ t.rows ∧ a < r.id ∧ r.id < b) := by
  have hp : compileAll (compileWhere t) (ApplyPaginationConditions Query.unconstrained
      { PaginationConditions.absent with GreaterThanID := some a, LessThanID := some b }).wheres =
      some [fun r => CmpOp.gt.eval (.num r.id) (.num a),
            fun r => CmpOp.lt.eval (.num r.id) (.num b)] := rfl
  have ho : compileAll (compileOrder t) (ApplyPaginationConditions Query.unconstrained
      { PaginationConditions.absent with GreaterThanID := some a, LessThanID := some b }).orders =
      some [fun x y => (Value.num y.id).le (Value.num x.id)] := rfl
  have hf : filterRows [fun r => CmpOp.gt.eval (.num r.id) (.num a),
        fun r => CmpOp.lt.eval (.num r.id) (.num b)] t.rows =
      t.rows.filter (fun r => decide (a < r.id) && decide (r.id < b)) := by
    unfold filterRows
    congr 1
    funext r
    simp only [List.all_cons, List.all_nil, Bool.and_true, gt_eval_num, lt_eval_num]
  refine ⟨_, execute_of_compiled hp ho, ?_, ?_⟩
  · show (sortRows _ _).Perm _
    rw [hf]
    exact sortRows_perm _ _
  · intro r
    show r ∈ sortRows _ _ ↔ _
    rw [mem_sortRows, hf, List.mem_filter]
    simp

/-- Scenario of C7: `{greaterThanID: 3, lessThanID: 8}` on the ten-row table
returns the rows of identity 7, 6, 5, 4 (in the default `id DESC` order). -/
theorem id_window_witness :
    execute (ApplyPaginationConditions Query.unconstrained
        { PaginationConditions.absent with GreaterThanID := some 3, LessThanID := some 8 })
        sampleTable =
      some [⟨7, 160, 199, [.text "date"]⟩, ⟨6, 150, 200, [.text "lime"]⟩,
            ⟨5, 140, 201, [.text "pear"]⟩, ⟨4, 130, 202, [.text "fig"]⟩] ∧
    ∃ rows, execute (ApplyPaginationConditions Query.unconstrained
        { PaginationConditions.absent with GreaterThanID := some 3, LessThanID := some 8 })
        sampleTable = some rows ∧
      rows.Perm (sampleTable.rows.filter (fun r => decide (3 < r.id) && decide (r.id < 8))) ∧
      ∀ r, r ∈ rows ↔ (r ∈ sampleTable.rows ∧ 3 < r.id ∧ r.id < 8) :=
  ⟨by decide, id_window sampleTable 3 8 (by decide)⟩

/-! ## Sorting -/

theorem lexLe_total : ∀ a b : List Char, lexLe a b = true ∨ lexLe b a = true
  | [], _ => Or.inl (by simp [lexLe])
  | _ :: _, [] => Or.inr (by simp [lexLe])
  | x :: xs, y :: ys => by
    rcases Nat.lt_trichotomy x.toNat y.toNat with h | h | h
    · left; simp [lexLe, h]
    · rcases lexLe_total xs ys with ih | ih
      · left; simp [lexLe, h, ih]
      · right; simp [lexLe, h, ih]
    · right; simp [lexLe, h]

theorem lexLe_trans : ∀ a b c : List Char, lexLe a b = true → lexLe b c = true → lexLe a c = true
  | [], _, _ => fun _ _ => by simp [lexLe]
  | _ :: _, [], _ => fun h _ => by simp [lexLe] at h
  | _ :: _, _ :: _, [] => fun _ h => by simp [lexLe] at h
  | x :: xs, y :: ys, z :: zs => by
    intro hxy hyz
    simp only [lexLe] at hxy hyz ⊢
    by_cases h1 : x.toNat < y.toNat
    · by_cases h2 : y.toNat < z.toNat
      · rw [if_pos (lt_trans h1 h2)]
      · by_cases h3 : z.toNat < y.toNat
        · simp [h2, h3] at hyz
        · have hyz' : y.toNat = z.toNat := by omega
          rw [if_pos (hyz' ▸ h1)]
    · by_cases h1' : y.toNat < x.toNat
      · simp [h1, h1'] at hxy
      · have hxy' : x.toNat = y.toNat := by omega
        simp only [h1, h1', if_false] at hxy
        by_cases h2 : y.toNat < z.toNat
        · rw [if_pos (hxy' ▸ h2)]
        · by_cases h3 : z.toNat < y.toNat
          · simp [h2, h3] at hyz
          · simp only [h2, h3, if_false] at hyz
            have hxz1 : ¬ x.toNat < z.toNat := by omega
            have hxz2 : ¬ z.toNat < x.toNat := by omega
            simp only [hxz1, hxz2, if_false]
            exact lexLe_trans xs ys zs hxy hyz

theorem Value.le_total (a b : Value) : a.le b = true ∨ b.le a = true := by
  cases a <;> cases b <;> simp [Value.le]
  · exact Int.le_total _ _
  · exact lexLe_total _ _

theorem Value.le_trans (a b c : Value) (hab : a.le b = true) (hbc : b.le c = true) :
    a.le c = true := by
  cases a <;> cases b <;> cases c <;> simp [Value.le] at hab hbc ⊢
  · exact Int.le_trans hab hbc
  · exact lexLe_trans _ _ _ hab hbc

theorem insertionSort_sorted_by_key (get : Row → Value) (rows : List Row) :
    (rows.insertionSort (fun x y => (get x).le (get y) = true)).Sorted
      (fun x y => (get x).le (get y) = true) := by
  haveI : IsTotal Row (fun x y => (get x).le (get y) = true) :=
    ⟨fun x y => Value.le_total (get x) (get y)⟩
  haveI : IsTrans Row (fun x y => (get x).le (get y) = true) :=
    ⟨fun x y z => Value.le_trans (get x) (get y) (get z)⟩
  exact List.sorted_insertionSort _ rows

theorem splitOnSpace_word (w rest : List Char) (hw : ' ' ∉ w) :
    splitOnSpace (w ++ ' ' :: rest) = w :: splitOnSpace rest := by
  induction w with
  | nil => simp [splitOnSpace]
  | cons c cs ih =>
    have hc : c ≠ ' ' := fun h => hw (h ▸ List.mem_cons_self _ _)
    have hcs : ' ' ∉ cs := fun h => hw (List.mem_cons_of_mem _ h)
    rw [List.cons_append, splitOnSpace, if_neg hc, ih hcs]

theorem words_field_direction (f : String) (hf : ' ' ∉ f.toList) :
    words (f ++ " " ++ "ASC") = [f, "ASC"] := by
  have h : (f ++ " " ++ "ASC").toList = f.toList ++ ' ' :: ['A', 'S', 'C'] := by simp
  unfold words
  rw [h, splitOnSpace_word _ _ hf]
  rfl

theorem compileOrder_asc (t : Table) (f : String) (get : Row → Value)
    (hsp : ' ' ∉ f.toList) (hf : t.column f = some get) :
    compileOrder t (f ++ " " ++ "ASC") = some (fun x y => (get x).le (get y)) := by
  unfold compileOrder
  rw [words_field_direction f hsp]
  simp only [hf]
  rfl

theorem filterRows_nil (rows : List Row) : filterRows [] rows = rows := by
  simp [filterRows]

theorem apply_limit_sort_asc (f : String) (k : Int) (hk : 0 < k) :
    ApplyPaginationConditions Query.unconstrained
      { PaginationConditions.absent with Limit := some k, SortBy := some f, Order := some "ASC" } =
    { offset := none, wheres := [], orders := [f ++ " " ++ "ASC"], limit := some k, rest := [] } := by
  have h1 := apply_offset Query.unconstrained
    { PaginationConditions.absent with Limit := some k, SortBy := some f, Order := some "ASC" }
  have h2 := apply_wheres Query.unconstrained
    { PaginationConditions.absent with Limit := some k, SortBy := some f, Order := some "ASC" }
  have h3 := apply_orders Query.unconstrained
    { PaginationConditions.absent with Limit := some k, SortBy := some f, Order := some "ASC" }
  have h4 := apply_limit Query.unconstrained
    { PaginationConditions.absent with Limit := some k, SortBy := some f, Order := some "ASC" }
  have h5 := apply_rest Query.unconstrained
    { PaginationConditions.absent with Limit := some k, SortBy := some f, Order := some "ASC" }
  have h4' : (applyLimit Query.unconstrained
      { PaginationConditions.absent with Limit := some k, SortBy := some f, Order := some "ASC" }).limit
      = some k := by
    simp [applyLimit, PaginationConditions.absent, hk]
  rw [h4'] at h4
  cases hq : ApplyPaginationConditions Query.unconstrained
    { PaginationConditions.absent with Limit := some k, SortBy := some f, Order := some "ASC" }
  rw [hq] at h1 h2 h3 h4 h5
  simp only [Query.mk.injEq]
  exact ⟨h1, h2, h3, h4, h5⟩

/-- C9: for every table, every field `f` of the table and every `k > 0`, the
conditions `{limit: k, sortBy: f, order: "ASC"}` on a base query without clauses
execute without engine error and return the first `min(k, n)` rows of the table
sorted ascending by `f`, where `n` is the number of rows of the table. -/
theorem limit_sorted_asc (t : Table) (f : String) (k : Int)
    (hk : 0 < k) (hf : t.hasField f = true) :
    ∃ get : Row → Value, t.column f = some get ∧
    ∃ sorted : List Row,
      sorted.Perm t.rows ∧
      sorted.Sorted (fun x y => (get x).le (get y) = true) ∧
      execute (ApplyPaginationConditions Query.unconstrained
        { PaginationConditions.absent with
          Limit := some k, SortBy := some f, Order := some "ASC" }) t =
        some (sorted.take k.toNat) ∧
      (sorted.take k.toNat).length = min k.toNat t.rows.length := by
  simp only [Table.hasField, Bool.and_eq_true, Bool.not_eq_true', List.contains_eq_any_beq,
    List.any_eq_false, beq_iff_eq, Option.isSome_iff_exists] at hf
  obtain ⟨hsp0, get, hget⟩ := hf
  have hsp : ' ' ∉ f.toList := fun h => hsp0 ' ' h rfl
  refine ⟨get, hget, t.rows.insertionSort (fun x y => (get x).le (get y) = true),
    List.perm_insertionSort _ _, insertionSort_sorted_by_key get t.rows, ?_, ?_⟩
  · rw [apply_limit_sort_asc f k hk]
    have hp : compileAll (compileWhere t) ([] : List Predicate) = some [] := rfl
    have ho : compileAll (compileOrder t) [f ++ " " ++ "ASC"] =
        some [fun x y => (get x).le (get y)] := by
      simp only [compileAll, compileOrder_asc t f get hsp hget]
    rw [execute_of_compiled hp ho]
    simp only [skipRows, capRows, ge_iff_le, le_of_lt hk, if_true, filterRows_nil, sortRows,
      List.foldr_cons, List.foldr_nil]
  · rw [List.length_take, List.length_insertionSort]

/-- Scenario of C9: `{limit: 10, sortBy: "name", order: "ASC"}` on the 25-row
table returns the ten rows whose names come first alphabetically, in
alphabetical order. -/
theorem limit_sorted_asc_witness :
    (execute (ApplyPaginationConditions Query.unconstrained
        { PaginationConditions.absent with
          Limit := some 10, SortBy := some "name", Order := some "ASC" }) fruitTable).map
        (List.map (fun r => (r.id, r.vals))) =
      some [(3, [.text "apple"]), (21, [.text "apricot"]), (18, [.text "banana"]),
            (9, [.text "berry"]), (17, [.text "cherry"]), (25, [.text "coconut"]),
            (22, [.text "currant"]), (14, [.text "date"]), (13, [.text "fig"]),
            (6, [.text "grape"])] ∧
    fruitTable.rows.length = 25 ∧
    ∃ get : Row → Value, fruitTable.column "name" = some get ∧
    ∃ sorted : List Row,
      sorted.Perm fruitTable.rows ∧
      sorted.Sorted (fun x y => (get x).le (get y) = true) ∧
      execute (ApplyPaginationConditions Query.unconstrained
        { PaginationConditions.absent with
          Limit := some 10, SortBy := some "name", Order := some "ASC" }) fruitTable =
        some (sorted.take 10) ∧
      (sorted.take 10).length = min 10 fruitTable.rows.length :=
  ⟨by decide, by decide,
   limit_sorted_asc fruitTable "name" 10 (by decide) (by decide)⟩

/-! ## Determinism and frame -/

theorem Query.ext_components {q1 q2 : Query} (ho : q1.offset = q2.offset)
    (hw : q1.wheres = q2.wheres) (hs : q1.orders = q2.orders) (hl : q1.limit = q2.limit)
    (hr : q1.rest = q2.rest) : q1 = q2 := by
  cases q1
  cases q2
  simp only [Query.mk.injEq]
  exact ⟨ho, hw, hs, hl, hr⟩

theorem loadField_some {α : Type} {deref : List Cell → Nat → Option α} {heap : List Cell}
    {ptr : Option Nat} {v : Option α} (h : loadField deref heap ptr = some v) :
    (ptr = none ∧ v = none) ∨ ∃ a x, ptr = some a ∧ deref heap a = some x ∧ v = some x := by
  cases ptr with
  | none =>
    left
    exact ⟨rfl, (Option.some.inj h).symm⟩
  | some a =>
    right
    simp only [loadField, Option.map_eq_some'] at h
    obtain ⟨x, hx, hv⟩ := h
    exact ⟨a, x, rfl, hx, hv.symm⟩

theorem load_fields {r : ConditionsRef} {heap : List Cell} {c : PaginationConditions}
    (h : r.load heap = some c) :
    loadField derefInt heap r.Limit = some c.Limit ∧
    loadField derefInt heap r.Offset = some c.Offset ∧
    loadField derefString heap r.SortBy = some c.SortBy ∧
    loadField derefString heap r.Order = some c.Order ∧
    loadField derefUint heap r.GreaterThanID = some c.GreaterThanID ∧
    loadField derefUint heap r.LessThanID = some c.LessThanID ∧
    loadField derefTime heap r.CreatedAfter = some c.CreatedAfter ∧
    loadField derefTime heap r.CreatedBefore = some c.CreatedBefore ∧
    loadField derefTime heap r.UpdatedAfter = some c.UpdatedAfter ∧
    loadField derefTime heap r.UpdatedBefore = some c.UpdatedBefore := by
  simp only [ConditionsRef.load, Option.bind_eq_some, Option.some.injEq] at h
  obtain ⟨l, hl, o, ho, s, hs, d, hd, g, hg, lt, hlt, ca, hca, cb, hcb, ua, hua, ub, hub, hc⟩ := h
  subst hc
  exact ⟨hl, ho, hs, hd, hg, hlt, hca, hcb, hua, hub⟩

theorem stepOffset_eq (heap : List Cell) (p : ConditionsRef) (q : Query)
    (c : PaginationConditions) (h : loadField derefInt heap p.Offset = some c.Offset) :
    stepOffset ⟨heap, p, q⟩ = some ⟨heap, p, applyOffset q c⟩ := by
  rcases loadField_some h with ⟨hp, hc⟩ | ⟨a, x, hp, hd, hc⟩
  · simp only [stepOffset, applyOffset, hp, hc]
  · simp only [stepOffset, applyOffset, hp, hc, hd]
    split <;> rfl

theorem stepLimit_eq (heap : List Cell) (p : ConditionsRef) (q : Query)
    (c : PaginationConditions) (h : loadField derefInt heap p.Limit = some c.Limit) :
    stepLimit ⟨heap, p, q⟩ = some ⟨heap, p, applyLimit q c⟩ := by
  rcases loadField_some h with ⟨hp, hc⟩ | ⟨a, x, hp, hd, hc⟩
  · simp only [stepLimit, applyLimit, hp, hc]
  · simp only [stepLimit, applyLimit, hp, hc, hd]
    split <;> rfl

theorem stepIDBounds_eq (heap : List Cell) (p : ConditionsRef) (q : Query)
    (c : PaginationConditions)
    (hg : loadField derefUint heap p.GreaterThanID = some c.GreaterThanID)
    (hl : loadField derefUint heap p.LessThanID = some c.LessThanID) :
    (stepGreaterThanID ⟨heap, p, q⟩).bind stepLessThanID =
      some ⟨heap, p, applyIDBounds q c⟩ := by
  rcases loadField_some hg with ⟨hp1, hc1⟩ | ⟨a1, x1, hp1, hd1, hc1⟩ <;>
  rcases loadField_some hl with ⟨hp2, hc2⟩ | ⟨a2, x2, hp2, hd2, hc2⟩ <;>
  simp [stepGreaterThanID, stepLessThanID, applyIDBounds, *]

theorem stepDateFilters_eq (heap : List Cell) (p : ConditionsRef) (q : Query)
    (c : PaginationConditions)
    (h1 : loadField derefTime heap p.CreatedAfter = some c.CreatedAfter)
    (h2 : loadField derefTime heap p.CreatedBefore = some c.CreatedBefore)
    (h3 : loadField derefTime heap p.UpdatedAfter = some c.UpdatedAfter)
    (h4 : loadField derefTime heap p.UpdatedBefore = some c.UpdatedBefore) :
    (((stepCreatedAfter ⟨heap, p, q⟩).bind stepCreatedBefore).bind stepUpdatedAfter).bind
        stepUpdatedBefore =
      some ⟨heap, p, applyDateFilters q c⟩ := by
  rcases loadField_some h1 with ⟨hp1, hc1⟩ | ⟨a1, x1, hp1, hd1, hc1⟩ <;>
  rcases loadField_some h2 with ⟨hp2, hc2⟩ | ⟨a2, x2, hp2, hd2, hc2⟩ <;>
  rcases loadField_some h3 with ⟨hp3, hc3⟩ | ⟨a3, x3, hp3, hd3, hc3⟩ <;>
  rcases loadField_some h4 with ⟨hp4, hc4⟩ | ⟨a4, x4, hp4, hd4, hc4⟩ <;>
  simp [stepCreatedAfter, stepCreatedBefore, stepUpdatedAfter, stepUpdatedBefore,
    applyDateFilters, *]

theorem stepOrder_eq (heap : List Cell) (p : ConditionsRef) (q : Query)
    (c : PaginationConditions)
    (hs : loadField derefString heap p.SortBy = some c.SortBy)
    (ho : loadField derefString heap p.Order = some c.Order) :
    stepOrder ⟨heap, p, q⟩ = some ⟨heap, p, q.Order (orderDirective c)⟩ := by
  rcases loadField_some hs with ⟨hp1, hc1⟩ | ⟨a1, x1, hp1, hd1, hc1⟩ <;>
  rcases loadField_some ho with ⟨hp2, hc2⟩ | ⟨a2, x2, hp2, hd2, hc2⟩ <;>
  simp [stepOrder, orderDirective, *]

/-- The call on a frame whose memory holds the conditions value `c` ends in the
same memory and the same struct of pointers, with the local `query` equal to
the value of the functional embedding. -/
theorem call_eq (heap : List Cell) (p : ConditionsRef) (q : Query) (c : PaginationConditions)
    (h : p.load heap = some c) :
    callApplyPaginationConditions ⟨heap, p, q⟩ =
      some ⟨heap, p, ApplyPaginationConditions q c⟩ := by
  obtain ⟨hl, ho, hs, hd, hg, hlt, hca, hcb, hua, hub⟩ := load_fields h
  have e1 := stepOffset_eq heap p q c ho
  have e2 := stepIDBounds_eq heap p (applyOffset q c) c hg hlt
  have e3 := stepDateFilters_eq heap p (applyIDBounds (applyOffset q c) c) c hca hcb hua hub
  have e4 := stepOrder_eq heap p (applyDateFilters (applyIDBounds (applyOffset q c) c) c) c hs hd
  have e5 := stepLimit_eq heap p
    ((applyDateFilters (applyIDBounds (applyOffset q c) c) c).Order (orderDirective c)) c hl
  unfold callApplyPaginationConditions
  rw [e1, Option.some_bind]
  cases h2 : stepGreaterThanID ⟨heap, p, applyOffset q c⟩ with
  | none => rw [h2] at e2; exact absurd e2 (by simp)
  | some m2 =>
    rw [h2, Option.some_bind] at e2
    rw [Option.some_bind, e2, Option.some_bind]
    cases h3 : stepCreatedAfter ⟨heap, p, applyIDBounds (applyOffset q c) c⟩ with
    | none => rw [h3] at e3; exact absurd e3 (by simp)
    | some m3 =>
      rw [h3, Option.some_bind] at e3
      rw [Option.some_bind]
      cases h4 : stepCreatedBefore m3 with
      | none => rw [h4] at e3; exact absurd e3 (by simp)
      | some m4 =>
        rw [h4, Option.some_bind] at e3
        rw [Option.some_bind]
        cases h5 : stepUpdatedAfter m4 with
        | none => rw [h5] at e3; exact absurd e3 (by simp)
        | some m5 =>
          rw [h5, Option.some_bind] at e3
          rw [Option.some_bind, e3, Option.some_bind, e4, Option.some_bind, e5]
          rfl

/-- C11: take two calls whose base queries agree on every component (offset,
predicates, order directives, limit, rest) and whose conditions are the same
value `c`, wherever the two callers keep it in memory.  Both calls return; the
two composed queries are equal, both equal to the functional embedding at `c`,
and therefore give the same result (the same rows or the same engine error) on
every table.  Neither call modifies the conditions: after the call the memory
and the struct of pointers are what they were, and still denote `c`. -/
theorem call_deterministic (h1 h2 : List Cell) (p1 p2 : ConditionsRef) (q1 q2 : Query)
    (c : PaginationConditions) (hc1 : p1.load h1 = some c) (hc2 : p2.load h2 = some c)
    (ho : q1.offset = q2.offset) (hw : q1.wheres = q2.wheres) (hs : q1.orders = q2.orders)
    (hl : q1.limit = q2.limit) (hr : q1.rest = q2.rest) :
    ∃ r1 r2 : Frame,
      callApplyPaginationConditions ⟨h1, p1, q1⟩ = some r1 ∧
      callApplyPaginationConditions ⟨h2, p2, q2⟩ = some r2 ∧
      r1.query = r2.query ∧
      r1.query = ApplyPaginationConditions q1 c ∧
      (∀ t : Table, execute r1.query t = execute r2.query t) ∧
      (r1.heap = h1 ∧ r1.conditions = p1 ∧ p1.load r1.heap = some c) ∧
      (r2.heap = h2 ∧ r2.conditions = p2 ∧ p2.load r2.heap = some c) := by
  have hq : q1 = q2 := Query.ext_components ho hw hs hl hr
  refine ⟨⟨h1, p1, ApplyPaginationConditions q1 c⟩, ⟨h2, p2, ApplyPaginationConditions q2 c⟩,
    call_eq h1 p1 q1 c hc1, call_eq h2 p2 q2 c hc2, ?_, rfl, ?_, ⟨rfl, rfl, hc1⟩,
    ⟨rfl, rfl, hc2⟩⟩
  · show ApplyPaginationConditions q1 c = ApplyPaginationConditions q2 c
    rw [hq]
  · intro t
    show execute (ApplyPaginationConditions q1 c) t = execute (ApplyPaginationConditions q2 c) t
    rw [hq]

/-- Instance of C11: the conditions `{greaterThanID: 3, limit: 2}` stored at
different addresses of two different memories, and the same base query written
down twice (once through the builder, once as a record).  Both calls return the
same composed query, which yields rows 10 and 9 of the ten-row table, and leave
memory and pointers as they were. -/
theorem call_deterministic_witness :
    callApplyPaginationConditions
        ⟨[.uint 3, .int 2],
         { ConditionsRef.nil with GreaterThanID := some 0, Limit := some 1 },
         (Query.unconstrained.Where "id < ?" (.num 11)).Limit 5⟩ =
      some ⟨[.uint 3, .int 2],
         { ConditionsRef.nil with GreaterThanID := some 0, Limit := some 1 },
         { offset := none, wheres := [⟨"id < ?", [.num 11]⟩, ⟨"id > ?", [.num 3]⟩],
           orders := ["id DESC"], limit := some 2, rest := [] }⟩ ∧
    execute { offset := none, wheres := [⟨"id < ?", [.num 11]⟩, ⟨"id > ?", [.num 3]⟩],
              orders := ["id DESC"], limit := some 2, rest := [] } sampleTable =
      some [⟨10, 190, 196, [.text "banana"]⟩, ⟨9, 180, 197, [.text "grape"]⟩] ∧
    ∃ r1 r2 : Frame,
      callApplyPaginationConditions
          ⟨[.uint 3, .int 2],
           { ConditionsRef.nil with GreaterThanID := some 0, Limit := some 1 },
           (Query.unconstrained.Where "id < ?" (.num 11)).Limit 5⟩ = some r1 ∧
      callApplyPaginationConditions
          ⟨[.int 2, .str "unused", .uint 3],
           { ConditionsRef.nil with GreaterThanID := some 2, Limit := some 0 },
           { offset := none, wheres := [⟨"id < ?", [.num 11]⟩], orders := [],
             limit := some 5, rest := [] }⟩ = some r2 ∧
      r1.query = r2.query ∧
      r1.query = ApplyPaginationConditions
          ((Query.unconstrained.Where "id < ?" (.num 11)).Limit 5)
          { PaginationConditions.absent with GreaterThanID := some 3, Limit := some 2 } ∧
      (∀ t : Table, execute r1.query t = execute r2.query t) ∧
      (r1.heap = [.uint 3, .int 2] ∧
        r1.conditions = { ConditionsRef.nil with GreaterThanID := some 0, Limit := some 1 } ∧
        ConditionsRef.load { ConditionsRef.nil with GreaterThanID := some 0, Limit := some 1 }
          r1.heap =
          some { PaginationConditions.absent with GreaterThanID := some 3, Limit := some 2 }) ∧
      (r2.heap = [.int 2, .str "unused", .uint 3] ∧
        r2.conditions = { ConditionsRef.nil with GreaterThanID := some 2, Limit := some 0 } ∧
        ConditionsRef.load { ConditionsRef.nil with GreaterThanID := some 2, Limit := some 0 }
          r2.heap =
          some { PaginationConditions.absent with GreaterThanID := some 3, Limit := some 2 }) :=
  ⟨by decide, by decide,
   call_deterministic [.uint 3, .int 2] [.int 2, .str "unused", .uint 3]
     { ConditionsRef.nil with GreaterThanID := some 0, Limit := some 1 }
     { ConditionsRef.nil with GreaterThanID := some 2, Limit := some 0 }
     ((Query.unconstrained.Where "id < ?" (.num 11)).Limit 5)
     { offset := none, wheres := [⟨"id < ?", [.num 11]⟩], orders := [], limit := some 5,
       rest := [] }
     { PaginationConditions.absent with GreaterThanID := some 3, Limit := some 2 }
     (by decide) (by decide) rfl rfl rfl rfl rfl⟩

/-- C12: the applicator touches only the offset, predicate, order and limit
components: the rest of the base query is unchanged for all conditions; with
`Offset` absent or not positive the composed offset is the base offset (an
offset set earlier by the caller is not cleared); with `Limit` absent or not
positive the composed limit is the base limit. -/
theorem apply_frame (q : Query) (c : PaginationConditions) :
    (ApplyPaginationConditions q c).rest = q.rest ∧
    ((c.Offset = none ∨ ∃ k, c.Offset = some k ∧ k ≤ 0) →
      (ApplyPaginationConditions q c).offset = q.offset) ∧
    ((c.Limit = none ∨ ∃ k, c.Limit = some k ∧ k ≤ 0) →
      (ApplyPaginationConditions q c).limit = q.limit) := by
  refine ⟨apply_rest q c, ?_, ?_⟩
  · intro h
    rw [apply_offset]
    rcases h with h | ⟨k, h, hk⟩
    · simp [applyOffset, h]
    · simp only [applyOffset, h]
      rw [if_neg (not_lt.mpr hk)]
  · intro h
    rw [apply_limit]
    rcases h with h | ⟨k, h, hk⟩
    · simp [applyLimit, h]
    · simp only [applyLimit, h]
      rw [if_neg (not_lt.mpr hk)]

/-- Instance of C12: a base query that skips 4 rows, keeps 7 and names its
table keeps all three under the conditions `{offset: 0, limit: -1}`. -/
theorem apply_frame_witness :
    (ApplyPaginationConditions
        { offset := some 4, wheres := [], orders := [], limit := some 7, rest := ["users"] }
        { PaginationConditions.absent with Offset := some 0, Limit := some (-1) }).rest =
      ["users"] ∧
    (ApplyPaginationConditions
        { offset := some 4, wheres := [], orders := [], limit := some 7, rest := ["users"] }
        { PaginationConditions.absent with Offset := some 0, Limit := some (-1) }).offset =
      some 4 ∧
    (ApplyPaginationConditions
        { offset := some 4, wheres := [], orders := [], limit := some 7, rest := ["users"] }
        { PaginationConditions.absent with Offset := some 0, Limit := some (-1) }).limit =
      some 7 :=
  ⟨(apply_frame
      { offset := some 4, wheres := [], orders := [], limit := some 7, rest := ["users"] }
      { PaginationConditions.absent with Offset := some 0, Limit := some (-1) }).1,
   (apply_frame
      { offset := some 4, wheres := [], orders := [], limit := some 7, rest := ["users"] }
      { PaginationConditions.absent with Offset := some 0, Limit := some (-1) }).2.1
      (Or.inr ⟨0, rfl, le_refl 0⟩),
   (apply_frame
      { offset := some 4, wheres := [], orders := [], limit := some 7, rest := ["users"] }
      { PaginationConditions.absent with Offset := some 0, Limit := some (-1) }).2.2
      (Or.inr ⟨-1, rfl, by decide⟩)⟩

/-! ## Empty cursor window -/

theorem compileAll_cons_some {α β : Type} {f : α → Option β} {x : α} {xs : List α}
    {ys : List β} (h : compileAll f (x :: xs) = some ys) :
    ∃ y ys', f x = some y ∧ compileAll f xs = some ys' ∧ ys = y :: ys' := by
  rw [compileAll] at h
  cases hx : f x with
  | none => rw [hx] at h; exact absurd h (by simp)
  | some y =>
    cases hxs : compileAll f xs with
    | none => rw [hx, hxs] at h; exact absurd h (by simp)
    | some ys' =>
      rw [hx, hxs] at h
      exact ⟨y, ys', rfl, rfl, (Option.some.inj h).symm⟩

theorem compileAll_append_of_some {α β : Type} {f : α → Option β} {xs ys : List α}
    {bs ns : List β} (hx : compileAll f xs = some bs) (hy : compileAll f ys = some ns) :
    compileAll f (xs ++ ys) = some (bs ++ ns) := by
  rw [compileAll_append, hx, hy]
  rfl

/-- The predicates added by the applicator only name the columns `id`,
`created_at`, `updated_at`, so every table accepts them. -/
theorem specPredicates_compile (t : Table) (c : PaginationConditions) :
    ∃ ns, compileAll (compileWhere t) (specPredicates c) = some ns := by
  obtain ⟨l, o, s, d, g, lt, ca, cb, ua, ub⟩ := c
  cases g <;> cases lt <;> cases ca <;> cases cb <;> cases ua <;> cases ub <;>
    exact ⟨_, rfl⟩

theorem result_eq_nil_of_filter_nil {l o : Option Int} {os : List (Row → Row → Bool)}
    {rows : List Row} (h : rows = []) : capRows l (skipRows o (sortRows os rows)) = [] := by
  apply List.eq_nil_of_subset_nil
  intro r hr
  have h1 := mem_sortRows.mp (skipRows_subset _ _ (capRows_subset _ _ hr))
  rw [h] at h1
  exact h1

theorem filterRows_window_nil (a b : Nat) (hempty : ¬ ∃ x : Nat, a < x ∧ x < b)
    (bs ns : List (Row → Bool)) (rows : List Row) :
    filterRows (bs ++ (fun r => CmpOp.gt.eval (.num r.id) (.num a)) ::
      (fun r => CmpOp.lt.eval (.num r.id) (.num b)) :: ns) rows = [] := by
  unfold filterRows
  rw [List.filter_eq_nil_iff]
  intro r _ hall
  simp only [List.all_append, List.all_cons, Bool.and_eq_true, gt_eval_num, lt_eval_num,
    decide_eq_true_eq] at hall
  exact hempty ⟨r.id, hall.2.1, hall.2.2.1⟩

/-- C13: when no identity lies strictly between `a` and `b`, conditions with
`GreaterThanID = a` and `LessThanID = b` (other fields arbitrary) still add both
predicates verbatim, and on every table and for every base query the composed
query returns no rows: every successful execution yields the empty list, and
the execution does succeed, with the empty list, whenever the base query and
the order directive are accepted by the engine. -/
theorem empty_id_window (q : Query) (c : PaginationConditions) (t : Table) (a b : Nat)
    (ha : c.GreaterThanID = some a) (hb : c.LessThanID = some b)
    (hempty : ¬ ∃ x : Nat, a < x ∧ x < b) :
    ((⟨"id > ?", [.num a]⟩ : Predicate) ∈ (ApplyPaginationConditions q c).wheres ∧
     (⟨"id < ?", [.num b]⟩ : Predicate) ∈ (ApplyPaginationConditions q c).wheres) ∧
    (∀ rows, execute (ApplyPaginationConditions q c) t = some rows → rows = []) ∧
    ((execute q t).isSome = true → (compileOrder t (orderDirective c)).isSome = true →
      execute (ApplyPaginationConditions q c) t = some []) := by
  have hspec : ∃ tail, specPredicates c =
      ⟨"id > ?", [.num a]⟩ :: ⟨"id < ?", [.num b]⟩ :: tail := by
    simp only [specPredicates, ha, hb, Option.map_some', Option.toList_some, List.append_assoc,
      List.singleton_append]
    exact ⟨_, rfl⟩
  obtain ⟨tail, htail⟩ := hspec
  have hnil : ∀ rows, execute (ApplyPaginationConditions q c) t = some rows → rows = [] := by
    intro rows h
    obtain ⟨ps, os, hp, -, hrows⟩ := execute_some h
    rw [apply_wheres, htail] at hp
    obtain ⟨bs, ns, -, hns, hps⟩ := compileAll_append_some hp
    obtain ⟨f1, ns1, hf1, hns1, hcons1⟩ := compileAll_cons_some hns
    obtain ⟨f2, ns2, hf2, -, hcons2⟩ := compileAll_cons_some hns1
    have e1 : f1 = fun r => CmpOp.gt.eval (.num r.id) (.num a) :=
      (Option.some.inj hf1).symm
    have e2 : f2 = fun r => CmpOp.lt.eval (.num r.id) (.num b) :=
      (Option.some.inj hf2).symm
    rw [hrows, hps, hcons1, hcons2, e1, e2]
    exact result_eq_nil_of_filter_nil (filterRows_window_nil a b hempty bs ns2 t.rows)
  refine ⟨⟨?_, ?_⟩, hnil, ?_⟩
  · rw [apply_wheres, htail]; simp
  · rw [apply_wheres, htail]; simp
  · intro hq hd
    obtain ⟨base, hbase⟩ := Option.isSome_iff_exists.mp hq
    obtain ⟨o, ho⟩ := Option.isSome_iff_exists.mp hd
    obtain ⟨bs, bo, hbs, hbo, -⟩ := execute_some hbase
    obtain ⟨ns, hns⟩ := specPredicates_compile t c
    have hp : compileAll (compileWhere t) (ApplyPaginationConditions q c).wheres =
        some (bs ++ ns) := by
      rw [apply_wheres]; exact compileAll_append_of_some hbs hns
    have hone : compileAll (compileOrder t) [orderDirective c] = some [o] := by
      simp only [compileAll, ho]
    have hor : compileAll (compileOrder t) (ApplyPaginationConditions q c).orders =
        some (bo ++ [o]) := by
      rw [apply_orders]; exact compileAll_append_of_some hbo hone
    have hex := execute_of_compiled hp hor
    rw [hex, hnil _ hex]

/-- Instances of C13 on the ten-row table: the windows `5 < id < 5` and
`5 < id < 6` return no rows, on a base query that filters `id > 2`. -/
theorem empty_id_window_witness :
    execute (ApplyPaginationConditions
        { Query.unconstrained with wheres := [⟨"id > ?", [.num 2]⟩] }
        { PaginationConditions.absent with GreaterThanID := some 5, LessThanID := some 5 })
        sampleTable = some [] ∧
    execute (ApplyPaginationConditions
        { Query.unconstrained with wheres := [⟨"id > ?", [.num 2]⟩] }
        { PaginationConditions.absent with GreaterThanID := some 5, LessThanID := some 6 })
        sampleTable = some [] ∧
    (execute { Query.unconstrained with wheres := [⟨"id > ?", [.num 2]⟩] } sampleTable).map
        List.length = some 8 :=
  ⟨(empty_id_window { Query.unconstrained with wheres := [⟨"id > ?", [.num 2]⟩] }
      { PaginationConditions.absent with GreaterThanID := some 5, LessThanID := some 5 }
      sampleTable 5 5 rfl rfl (fun ⟨x, h1, h2⟩ => absurd (lt_trans h1 h2) (lt_irrefl 5))).2.2
      (by decide) (by decide),
   (empty_id_window { Query.unconstrained with wheres := [⟨"id > ?", [.num 2]⟩] }
      { PaginationConditions.absent with GreaterThanID := some 5, LessThanID := some 6 }
      sampleTable 5 6 rfl rfl
      (fun ⟨x, h1, h2⟩ => absurd (Nat.lt_succ_iff.mp h2) (not_le.mpr h1))).2.2
      (by decide) (by decide),
   by decide⟩

/-! ## Re-application -/

/-- Every order directive the engine accepts is a total, transitive comparison
of rows. -/
theorem compileOrder_total_trans {t : Table} {text : String} {o : Row → Row → Bool}
    (h : compileOrder t text = some o) :
    (∀ x y, o x y = true ∨ o y x = true) ∧
    (∀ x y z, o x y = true → o y z = true → o x z = true) := by
  unfold compileOrder at h
  split at h
  · split at h
    · rename_i get _
      split at h
      · cases h
        exact ⟨fun x y => Value.le_total (get x) (get y),
          fun x y z => Value.le_trans (get x) (get y) (get z)⟩
      · split at h
        · cases h
          exact ⟨fun x y => Value.le_total (get y) (get x),
            fun x y z hxy hyz => Value.le_trans (get z) (get y) (get x) hyz hxy⟩
        · exact absurd h (by simp)
    · exact absurd h (by simp)
  · exact absurd h (by simp)

theorem insertionSort_idem (o : Row → Row → Bool)
    (htot : ∀ x y, o x y = true ∨ o y x = true)
    (htr : ∀ x y z, o x y = true → o y z = true → o x z = true) (rows : List Row) :
    (rows.insertionSort (fun x y => o x y = true)).insertionSort (fun x y => o x y = true) =
      rows.insertionSort (fun x y => o x y = true) := by
  haveI : IsTotal Row (fun x y => o x y = true) := ⟨htot⟩
  haveI : IsTrans Row (fun x y => o x y = true) := ⟨htr⟩
  exact List.Sorted.insertionSort_eq (List.sorted_insertionSort _ rows)

theorem sortRows_append (xs ys : List (Row → Row → Bool)) (rows : List Row) :
    sortRows (xs ++ ys) rows = sortRows xs (sortRows ys rows) := by
  simp only [sortRows, List.foldr_append]

theorem sortRows_repeat_last (bo : List (Row → Row → Bool)) (o : Row → Row → Bool)
    (htot : ∀ x y, o x y = true ∨ o y x = true)
    (htr : ∀ x y z, o x y = true → o y z = true → o x z = true) (rows : List Row) :
    sortRows ((bo ++ [o]) ++ [o]) rows = sortRows (bo ++ [o]) rows := by
  rw [sortRows_append (bo ++ [o]) [o], sortRows_append bo [o], sortRows_append bo [o] rows]
  exact congrArg (sortRows bo) (insertionSort_idem o htot htr rows)

theorem filterRows_repeat (bs ns : List (Row → Bool)) (rows : List Row) :
    filterRows ((bs ++ ns) ++ ns) rows = filterRows (bs ++ ns) rows := by
  unfold filterRows
  congr 1
  funext r
  simp only [List.all_append, Bool.and_assoc, Bool.and_self]

theorem execute_none_of_wheres {q : Query} {t : Table}
    (h : compileAll (compileWhere t) q.wheres = none) : execute q t = none := by
  unfold execute
  rw [h]

theorem execute_none_of_orders {q : Query} {t : Table}
    (h : compileAll (compileOrder t) q.orders = none) : execute q t = none := by
  unfold execute
  rw [h]
  cases compileAll (compileWhere t) q.wheres <;> rfl

theorem reapply_offset (q : Query) (c : PaginationConditions) :
    (ApplyPaginationConditions (ApplyPaginationConditions q c) c).offset =
      (ApplyPaginationConditions q c).offset := by
  rw [apply_offset (ApplyPaginationConditions q c) c]
  unfold applyOffset
  split
  · split
    · rename_i n hc hn
      rw [apply_offset q c]
      simp [applyOffset, hc, hn]
    · rfl
  · rfl

theorem reapply_limit (q : Query) (c : PaginationConditions) :
    (ApplyPaginationConditions (ApplyPaginationConditions q c) c).limit =
      (ApplyPaginationConditions q c).limit := by
  rw [apply_limit (ApplyPaginationConditions q c) c]
  unfold applyLimit
  split
  · split
    · rename_i n hc hn
      rw [apply_limit q c]
      simp [applyLimit, hc, hn]
    · rfl
  · rfl

theorem reapply_execute (q : Query) (c : PaginationConditions) (t : Table) :
    execute (ApplyPaginationConditions (ApplyPaginationConditions q c) c) t =
      execute (ApplyPaginationConditions q c) t := by
  have hw2 := apply_wheres (ApplyPaginationConditions q c) c
  have ho2 := apply_orders (ApplyPaginationConditions q c) c
  have hw1 := apply_wheres q c
  have ho1 := apply_orders q c
  cases hcw : compileAll (compileWhere t) (ApplyPaginationConditions q c).wheres with
  | none =>
    rw [execute_none_of_wheres hcw]
    apply execute_none_of_wheres
    rw [hw2, compileAll_append, hcw]
    rfl
  | some ps =>
    cases hco : compileAll (compileOrder t) (ApplyPaginationConditions q c).orders with
    | none =>
      rw [execute_none_of_orders hco]
      apply execute_none_of_orders
      rw [ho2, compileAll_append, hco]
      rfl
    | some os =>
      have hcw1 := hcw
      rw [hw1] at hcw1
      obtain ⟨bs, ns, -, hns, hps⟩ := compileAll_append_some hcw1
      have hco1 := hco
      rw [ho1] at hco1
      obtain ⟨bo, os1, -, hos1, hos⟩ := compileAll_append_some hco1
      obtain ⟨o, rest, hod, hrest, hcons⟩ := compileAll_cons_some hos1
      have hrest' : rest = [] := (Option.some.inj hrest).symm
      subst hrest'
      subst hcons
      obtain ⟨htot, htr⟩ := compileOrder_total_trans hod
      have hcw2 : compileAll (compileWhere t)
          (ApplyPaginationConditions (ApplyPaginationConditions q c) c).wheres =
          some (ps ++ ns) := by
        rw [hw2]; exact compileAll_append_of_some hcw hns
      have hco2 : compileAll (compileOrder t)
          (ApplyPaginationConditions (ApplyPaginationConditions q c) c).orders =
          some (os ++ [o]) := by
        rw [ho2]; exact compileAll_append_of_some hco hos1
      rw [execute_of_compiled hcw2 hco2, execute_of_compiled hcw hco, reapply_offset,
        reapply_limit, hps, hos, filterRows_repeat, sortRows_repeat_last bo o htot htr]

/-- C14: applying the same conditions a second time leaves offset and limit as
after the first application; the predicates are those of the first application
followed by the added predicates once more, so the set of predicates is the
same; on every table the twice-composed query gives the same result as the
once-composed one; and it is a different query value whenever the conditions
add at least one predicate. -/
theorem reapply_same_rows (q : Query) (c : PaginationConditions) :
    (ApplyPaginationConditions (ApplyPaginationConditions q c) c).offset =
      (ApplyPaginationConditions q c).offset ∧
    (ApplyPaginationConditions (ApplyPaginationConditions q c) c).limit =
      (ApplyPaginationConditions q c).limit ∧
    (ApplyPaginationConditions (ApplyPaginationConditions q c) c).wheres =
      q.wheres ++ specPredicates c ++ specPredicates c ∧
    (∀ p : Predicate,
      p ∈ (ApplyPaginationConditions (ApplyPaginationConditions q c) c).wheres ↔
      p ∈ (ApplyPaginationConditions q c).wheres) ∧
    (∀ t : Table, execute (ApplyPaginationConditions (ApplyPaginationConditions q c) c) t =
      execute (ApplyPaginationConditions q c) t) ∧
    (specPredicates c ≠ [] →
      ApplyPaginationConditions (ApplyPaginationConditions q c) c ≠
        ApplyPaginationConditions q c) := by
  have hw2 : (ApplyPaginationConditions (ApplyPaginationConditions q c) c).wheres =
      q.wheres ++ specPredicates c ++ specPredicates c := by
    rw [apply_wheres, apply_wheres]
  refine ⟨reapply_offset q c, reapply_limit q c, hw2, ?_, reapply_execute q c, ?_⟩
  · intro p
    rw [hw2, apply_wheres]
    simp only [List.mem_append]
    tauto
  · intro hne heq
    have h := congrArg Query.wheres heq
    rw [hw2, apply_wheres] at h
    exact hne (List.append_right_eq_self.mp h)

/-- Instance of C14: with `{greaterThanID: 3, limit: 2}` the second application
repeats the predicate `id > 3`, is a different query value, and still returns
rows 10 and 9 of the ten-row table. -/
theorem reapply_same_rows_witness :
    (ApplyPaginationConditions (ApplyPaginationConditions Query.unconstrained
        { PaginationConditions.absent with GreaterThanID := some 3, Limit := some 2 })
        { PaginationConditions.absent with GreaterThanID := some 3, Limit := some 2 }).wheres =
      [⟨"id > ?", [.num 3]⟩, ⟨"id > ?", [.num 3]⟩] ∧
    execute (ApplyPaginationConditions (ApplyPaginationConditions Query.unconstrained
        { PaginationConditions.absent with GreaterThanID := some 3, Limit := some 2 })
        { PaginationConditions.absent with GreaterThanID := some 3, Limit := some 2 })
        sampleTable =
      some [⟨10, 190, 196, [.text "banana"]⟩, ⟨9, 180, 197, [.text "grape"]⟩] ∧
    ApplyPaginationConditions (ApplyPaginationConditions Query.unconstrained
        { PaginationConditions.absent with GreaterThanID := some 3, Limit := some 2 })
        { PaginationConditions.absent with GreaterThanID := some 3, Limit := some 2 } ≠
      ApplyPaginationConditions Query.unconstrained
        { PaginationConditions.absent with GreaterThanID := some 3, Limit := some 2 } :=
  ⟨by decide, by decide,
   (reapply_same_rows Query.unconstrained
      { PaginationConditions.absent with GreaterThanID := some 3, Limit := some 2 }).2.2.2.2.2
      (by decide)⟩

end Request
